import Mathlib

/-!
Verification development for the athena Wasm smart-contract engine
(`src/eos-vm/include/eosio/vm/x86_64.hpp`, `src/src/athena.cpp`,
`src/src/wabt.cpp`).

The single-pass x86-64 JIT writer is embedded at two levels:

* a byte-level embedding of the emitter functions (`emit_*`): each emitter
  is a `List Emitted`, where ordinary opcode bytes are `.byte`, 32-bit
  branch displacements that `fix_branch` later patches are `.disp32` with
  their symbolic target, 32-bit immediates are `.imm32`, and 64-bit
  absolute host-function pointers are `.ptr64`;
* a semantic embedding of the control flow the emitted instructions
  implement (indirect-call dispatch, call-depth bookkeeping, the br_table
  binary search, division/remainder, float min/max on bit patterns).

The executor pieces (`WabtEngine::execute`, `athena_execute`,
`athena_set_option`) are embedded as pure functions over explicit state.
-/

namespace Athena

/-! ## Byte-level embedding of the JIT emitters (x86_64.hpp) -/

/-- Host-side C++ functions whose 8-byte absolute address is emitted by
`emit_operand_ptr` (x86_64.hpp). -/
inductive HostSym where
  | currentMemory
  | growMemory
  | callHostFunction
  deriving DecidableEq, Repr

/-- Symbolic targets of 32-bit relative displacements emitted by
`emit_branch_target32` and later resolved by `fix_branch` /
`register_call`. -/
inductive BranchTgt where
  | stackOverflowH
  | typeErrorH
  | callIndirectErrH
  | fpeH
  | jmpTableT
  | funcT (n : Nat)
  | localT (n : Nat)
  deriving DecidableEq, Repr

/-- One unit of emitted machine code: a literal byte, a 4-byte branch
displacement placeholder, a 4-byte immediate, or an 8-byte host pointer. -/
inductive Emitted where
  | byte (v : Nat)
  | disp32 (t : BranchTgt)
  | imm32 (v : Nat)
  | ptr64 (s : HostSym)
  deriving DecidableEq, Repr

/-- Number of code bytes an `Emitted` unit occupies. -/
def emittedSize : Emitted → Nat
  | .byte _ => 1
  | .disp32 _ => 4
  | .imm32 _ => 4
  | .ptr64 _ => 8

/-- Total byte length of an emitted sequence. -/
def codeBytes (l : List Emitted) : Nat := (l.map emittedSize).sum

/-- Whether `pat` occurs at the head of `l`. -/
def seqIsAt : List Emitted → List Emitted → Bool
  | [], _ => true
  | _ :: _, [] => false
  | p :: ps, x :: xs => p = x && seqIsAt ps xs

/-- Whether `pat` occurs contiguously anywhere inside `l`. -/
def hasRun (pat : List Emitted) : List Emitted → Bool
  | [] => pat.isEmpty
  | x :: xs => seqIsAt pat (x :: xs) || hasRun pat xs

/-- x86_64.hpp `emit_align_stack`: `mov %rsp, %rcx; andq $-16, %rsp;
push %rcx; push %rcx`. -/
def emit_align_stack : List Emitted :=
  [.byte 0x48, .byte 0x89, .byte 0xe1,
   .byte 0x48, .byte 0x83, .byte 0xe4, .byte 0xf0,
   .byte 0x51,
   .byte 0x51]

/-- The `andq $-16, %rsp` instruction, the byte pattern that performs
16-byte stack alignment inside `emit_align_stack` and
`emit_error_handler`. -/
def alignRspSeq : List Emitted :=
  [.byte 0x48, .byte 0x83, .byte 0xe4, .byte 0xf0]

/-- x86_64.hpp `emit_restore_stack`: `mov (%rsp), %rsp`. -/
def emit_restore_stack : List Emitted :=
  [.byte 0x48, .byte 0x8b, .byte 0x24, .byte 0x24]

/-- x86_64.hpp `emit_current_memory` (lines 621-637): push %rdi; push %rsi;
movabsq $current_memory, %rax; call *%rax; pop %rsi; pop %rdi; push %rax. -/
def emit_current_memory : List Emitted :=
  [.byte 0x57,
   .byte 0x56,
   .byte 0x48, .byte 0xb8, .ptr64 .currentMemory,
   .byte 0xff, .byte 0xd0,
   .byte 0x5e,
   .byte 0x5f,
   .byte 0x50]

/-- x86_64.hpp `emit_grow_memory` (lines 638-658): popq %rax; push %rdi;
push %rsi; movq %rax, %rsi; movabsq $grow_memory, %rax; call *%rax;
pop %rsi; pop %rdi; push %rax. -/
def emit_grow_memory : List Emitted :=
  [.byte 0x58,
   .byte 0x57,
   .byte 0x56,
   .byte 0x48, .byte 0x89, .byte 0xc6,
   .byte 0x48, .byte 0xb8, .ptr64 .growMemory,
   .byte 0xff, .byte 0xd0,
   .byte 0x5e,
   .byte 0x5f,
   .byte 0x50]

/-- x86_64.hpp `emit_host_call` (lines 1986-2009): mov $funcnum, %edx;
push %rdi; push %rsi; lea 24(%rsp), %rsi; align stack; movabsq
$call_host_function, %rax; call *%rax; restore stack; pop %rsi; pop %rdi;
retq. -/
def emit_host_call (funcnum : Nat) : List Emitted :=
  [.byte 0xba, .imm32 funcnum,
   .byte 0x57,
   .byte 0x56,
   .byte 0x48, .byte 0x8d, .byte 0x74, .byte 0x24, .byte 0x18]
  ++ emit_align_stack
  ++ [.byte 0x48, .byte 0xb8, .ptr64 .callHostFunction,
      .byte 0xff, .byte 0xd0]
  ++ emit_restore_stack
  ++ [.byte 0x5e,
      .byte 0x5f,
      .byte 0xc3]

/-- x86_64.hpp `emit_check_call_depth` (lines 1723-1729): `decl %ebx;
jz stack_overflow_handler`. -/
def emit_check_call_depth : List Emitted :=
  [.byte 0xff, .byte 0xcb,
   .byte 0x0f, .byte 0x84, .disp32 .stackOverflowH]

/-- x86_64.hpp `emit_check_call_depth_end` (lines 1730-1733): `incl %ebx`. -/
def emit_check_call_depth_end : List Emitted :=
  [.byte 0xff, .byte 0xc3]

/-- x86_64.hpp `emit_multipop` (lines 1740-1759); `count` is a uint32. -/
def emit_multipop (count : Nat) : List Emitted :=
  if count > 0 ∧ count ≠ 0x80000001 then
    (if count &&& 0x80000000 ≠ 0 then
       [.byte 0x48, .byte 0x8b, .byte 0x04, .byte 0x24] else [])
    ++ (if count &&& 0x70000000 ≠ 0 then [.byte 0xCC] else [])
    ++ [.byte 0x48, .byte 0x81, .byte 0xc4, .imm32 ((count * 8) % 2 ^ 32)]
    ++ (if count &&& 0x80000000 ≠ 0 then [.byte 0x50] else [])
  else []

/-- The shape of a Wasm function type that the emitters consult
(`ft.param_types.size()`, `ft.return_count`). -/
structure FuncType where
  param_count : Nat
  return_count : Nat

/-- x86_64.hpp `emit_call` (lines 321-333): check call depth; `callq` with a
32-bit relative displacement registered against `funcnum`; pop the
arguments; push the result if any; increment the depth counter back. -/
def emit_call (ft : FuncType) (funcnum : Nat) : List Emitted :=
  emit_check_call_depth
  ++ [.byte 0xe8, .disp32 (.funcT funcnum)]
  ++ emit_multipop ft.param_count
  ++ (if ft.return_count ≠ 0 then [.byte 0x50] else [])
  ++ emit_check_call_depth_end

/-- x86_64.hpp `emit_call_indirect` (lines 335-367); `functypeidx` is the
canonical token, i.e. the source has already replaced the static type index
by `_mod.type_aliases[functypeidx]`. The sequence is: check call depth;
pop %rax; cmp $table_size, %rax; jae call_indirect_handler; leaq
table(%rip), %rdx; imul $17, %eax, %eax; addq %rdx, %rax; mov $functypeidx,
%edx; callq *%rax; pop arguments; push result; increment depth counter. -/
def emit_call_indirect (tableSize : Nat) (ft : FuncType) (functypeidx : Nat) :
    List Emitted :=
  emit_check_call_depth
  ++ [.byte 0x58,
      .byte 0x48, .byte 0x3d, .imm32 tableSize,
      .byte 0x0f, .byte 0x83, .disp32 .callIndirectErrH,
      .byte 0x48, .byte 0x8d, .byte 0x15, .disp32 .jmpTableT,
      .byte 0x6b, .byte 0xc0, .byte 17,
      .byte 0x48, .byte 0x01, .byte 0xd0,
      .byte 0xba, .imm32 functypeidx,
      .byte 0xff, .byte 0xd0]
  ++ emit_multipop ft.param_count
  ++ (if ft.return_count ≠ 0 then [.byte 0x50] else [])
  ++ emit_check_call_depth_end

/-- x86_64.hpp `emit_i32_binop` (lines 1896-1905): `popq %rcx; popq %rax`
followed by the caller-supplied opcode bytes. -/
def emit_i32_binop (op : List Emitted) : List Emitted :=
  [.byte 0x59, .byte 0x58] ++ op

/-- x86_64.hpp `emit_i64_binop` (lines 1907-1914): same pop pattern. -/
def emit_i64_binop (op : List Emitted) : List Emitted :=
  [.byte 0x59, .byte 0x58] ++ op

/-- x86_64.hpp `emit_i32_div_s` (line 924): `cdq; idiv %ecx; pushq %rax`. -/
def emit_i32_div_s : List Emitted :=
  emit_i32_binop [.byte 0x99, .byte 0xf7, .byte 0xf9, .byte 0x50]

/-- x86_64.hpp `emit_i64_div_s` (line 1027): `cqo; idiv %rcx; pushq %rax`
(0x48 0x99 is cqo, 0x48 0xf7 0xf9 is the 64-bit idiv). -/
def emit_i64_div_s : List Emitted :=
  emit_i64_binop
    [.byte 0x48, .byte 0x99, .byte 0x48, .byte 0xf7, .byte 0xf9, .byte 0x50]

/-! ## Indirect-call dispatch: module data and semantics -/

/-- The parts of `eosio::vm::module` that indirect calls consult:
`tables[0].table` (function indices), `fast_functions` (the canonical type
token of every function, imports first), `type_aliases` (canonicalization
map for static type indices). -/
structure TableModule where
  table : List Nat
  fast_functions : List Nat
  type_aliases : List Nat

/-- Where control goes when the emitted `call_indirect` sequence runs. -/
inductive CallIndirectResult where
  | callFn (fnIdx : Nat)
  | trapOutOfRange
  | trapTypeMismatch
  deriving DecidableEq, Repr

/-- Byte-level embedding of one jump-table entry emitted by the
`machine_code_writer` constructor (x86_64.hpp lines 73-95): an in-range
function gets `cmp $token, %edx; je fn; jmp type_error_handler` and an
out-of-range slot gets `jmp call_indirect_handler` padded with twelve
`int3` bytes. -/
def jump_table_entry_code (m : TableModule) (fn_idx : Nat) : List Emitted :=
  if h : fn_idx < m.fast_functions.length then
    [.byte 0x81, .byte 0xfa, .imm32 (m.fast_functions[fn_idx]),
     .byte 0x0f, .byte 0x84, .disp32 (.funcT fn_idx),
     .byte 0xe9, .disp32 .typeErrorH]
  else
    [.byte 0xe9, .disp32 .callIndirectErrH] ++ List.replicate 12 (.byte 0xCC)

/-- Semantics of one jump-table entry, entered with the caller's canonical
type token in %edx: compare the token against the target's
`fast_functions` entry and enter the function on equality, fall into the
type-error trampoline otherwise; out-of-range slots branch straight to the
call-indirect-error trampoline (x86_64.hpp lines 73-95). -/
def jumpTableEntry (m : TableModule) (fn_idx t : Nat) : CallIndirectResult :=
  if h : fn_idx < m.fast_functions.length then
    if m.fast_functions[fn_idx] = t then .callFn fn_idx else .trapTypeMismatch
  else .trapOutOfRange

/-- Semantics of the code emitted by `emit_call_indirect` (x86_64.hpp lines
335-367) with canonical token `t` and popped table index `i`: `cmp $size,
%rax; jae call_indirect_handler`, then indexing the 17-byte-stride jump
table at `i` and entering the entry with `t` in %edx. -/
def call_indirect_sem (m : TableModule) (t i : Nat) : CallIndirectResult :=
  if h : i < m.table.length then jumpTableEntry m (m.table[i]) t
  else .trapOutOfRange

/-! ## Call-depth accounting -/

/-- Semantics of `emit_check_call_depth`: `decl %ebx` (32-bit wraparound
decrement of the depth counter) followed by `jz stack_overflow_handler`;
`none` is the branch to the trampoline. -/
def check_call_depth_step (c : Nat) : Option Nat :=
  if (c + (2 ^ 32 - 1)) % 2 ^ 32 = 0 then none
  else some ((c + (2 ^ 32 - 1)) % 2 ^ 32)

/-- Semantics of `emit_check_call_depth_end`: `incl %ebx`. -/
def check_call_depth_end_step (c : Nat) : Nat := (c + 1) % 2 ^ 32

/-- Depth-counter value after `k` nested calls have been entered (none of
them yet returned), starting from the budget `B` that the executor loads
into %ebx before entering the JIT (spec section 4.5 step 5; the loader of
%ebx lives in the eos-vm execution context, outside `src/`). -/
def callDepthAfter (B : Nat) : Nat → Option Nat
  | 0 => some B
  | k + 1 => (callDepthAfter B k).bind check_call_depth_step

/-! ## br_table lowering -/

/-- Initial range stack built by `emit_br_table` (x86_64.hpp lines
292-299): the size is increased by one so that the same algorithm also
emits the default case. -/
def emit_br_table_stack (table_size : Nat) : List (Nat × Nat) :=
  [(0, table_size + 1)]

/-- Decision tree laid out by `br_table_generator::emit_case` (x86_64.hpp
lines 233-274) over the half-open range `[lo, hi)`: while the range has
more than one element, emit `cmp $mid, %eax; jae RIGHT` for the midpoint
`mid = lo + (hi - lo) / 2`; a singleton range is a leaf that jumps to the
case's branch target. `brTableDescend lo hi v` is the leaf the popped
index value `v` reaches. -/
def brTableDescend (lo hi v : Nat) : Nat :=
  if _h : hi - lo > 1 then
    if v ≥ lo + (hi - lo) / 2 then brTableDescend (lo + (hi - lo) / 2) hi v
    else brTableDescend lo (lo + (hi - lo) / 2) v
  else lo
  termination_by hi - lo
  decreasing_by all_goals omega

/-- Termination measure for the emit_case stack walk: ranges shrink on a
split and disappear at a leaf. -/
def stackMeasure (l : List (Nat × Nat)) : Nat :=
  (l.map fun p => 2 * (p.2 - p.1) - 1).sum

/-- The sequence of leaf labels produced by calling
`br_table_generator::emit_case` repeatedly until the range stack is empty,
mirroring its pop/split loop: a range wider than one splits at the
midpoint, pushing the upper half below the lower half; a singleton range
emits a leaf (whose label the source asserts equals the running case
counter `_i`). -/
def emitCases : List (Nat × Nat) → List Nat
  | [] => []
  | (lo, hi) :: rest =>
    if _h : hi - lo > 1 then
      emitCases ((lo, lo + (hi - lo) / 2) :: (lo + (hi - lo) / 2, hi) :: rest)
    else lo :: emitCases rest
  termination_by l => 2 * stackMeasure l + l.length
  decreasing_by all_goals simp [stackMeasure]; omega

/-! ## Signed division and remainder -/

/-- Two's-complement read of a `2*N`-wide bit pattern, with `N` the weight
of the sign bit (`N = 2^31` for i32, `N = 2^63` for i64); this is what
`cdq`/`cqo` sign-extension makes the hardware see. -/
def toSigned (N b : Nat) : Int :=
  if b < N then (b : Int) else (b : Int) - 2 * N

/-- Bit pattern of an integer value, reduced mod the register width. -/
def toBits (N : Nat) (v : Int) : Nat := (v % (2 * N : Nat)).toNat

/-- Truncated (round-toward-zero) quotient, the quotient the x86 `idiv`
instruction computes. -/
def trquot (a b : Int) : Int := a.sign * b.sign * (a.natAbs / b.natAbs : Nat)

/-- Truncated remainder, the remainder `idiv` leaves in %rdx. -/
def trem (a b : Int) : Int := a - b * trquot a b

/-- The x86 `idiv` instruction on a sign-extended dividend: faults (`none`,
a hardware #DE trap) on a zero divisor or when the quotient does not fit
in the signed register width. -/
def idivT (N : Nat) (num c : Int) : Option (Int × Int) :=
  if c = 0 then none
  else
    let q := trquot num c
    if q < -(N : Int) ∨ (N : Int) ≤ q then none else some (q, trem num c)

/-- Semantics of `emit_i32_rem_s` / `emit_i64_rem_s` (x86_64.hpp lines
926-951 and 1031-1056): pop the divisor into %rcx and the dividend into
%rax; if the divisor compares equal to -1, skip the divide and zero %edx
(the Boolean in the result records this short-circuit); otherwise
sign-extend (`cdq`/`cqo`) and `idiv`; push %rdx. -/
def rem_s_jit (N a c : Nat) : Option (Nat × Bool) :=
  let sc := toSigned N c
  if sc = -1 then some (0, true)
  else
    match idivT N (toSigned N a) sc with
    | none => none
    | some qr => some (toBits N qr.2, false)

/-- i32.rem_s lowering. -/
def i32_rem_s_sem (a c : Nat) : Option (Nat × Bool) := rem_s_jit (2 ^ 31) a c

/-- i64.rem_s lowering. -/
def i64_rem_s_sem (a c : Nat) : Option (Nat × Bool) := rem_s_jit (2 ^ 63) a c

/-! ## Float min/max on IEEE-754 bit patterns -/

/-- Sign bit of a bit pattern in the format with `e` exponent bits and `f`
fraction bits. -/
def fSign (e f b : Nat) : Nat := b / 2 ^ (e + f)

/-- Biased exponent field. -/
def fExp (e f b : Nat) : Nat := b / 2 ^ f % 2 ^ e

/-- Fraction field. -/
def fFrac (f b : Nat) : Nat := b % 2 ^ f

/-- NaN test on the bit pattern: exponent all ones and nonzero fraction. -/
def fIsNaN (e f b : Nat) : Bool := fExp e f b = 2 ^ e - 1 && fFrac f b ≠ 0

/-- Magnitude (the pattern with the sign bit cleared). -/
def fMag (e f b : Nat) : Nat := b % 2 ^ (e + f)

/-- Order key of a non-NaN pattern: IEEE comparison of two non-NaN floats
is integer comparison of the magnitudes, negated for negative sign, with
both zeros mapping to key 0. -/
def fKey (e f b : Nat) : Int :=
  if fSign e f b = 0 then (fMag e f b : Int) else -(fMag e f b : Int)

/-- The SSE `minss`/`minsd` instruction, destination `dst`, source `src`:
returns the source operand whenever either input is NaN or the ordered
comparison `dst < src` fails (so also when both are zeros). -/
def fMinss (e f dst src : Nat) : Nat :=
  if fIsNaN e f dst || fIsNaN e f src then src
  else if fKey e f dst < fKey e f src then dst else src

/-- The SSE `maxss`/`maxsd` instruction. -/
def fMaxss (e f dst src : Nat) : Nat :=
  if fIsNaN e f dst || fIsNaN e f src then src
  else if fKey e f dst > fKey e f src then dst else src

/-- Semantics of `emit_f32_min` / `emit_f64_min` (x86_64.hpp lines
1132-1159 and 1273-1300); `x` is the first (deeper) operand at 8(%rsp),
`y` the second (top) operand at (%rsp). The emitted code tests the raw
bits of `y` against zero: if they are exactly +0 it computes
`minss(y, x)`, otherwise `minss(x, y)`. -/
def fmin_jit (e f x y : Nat) : Nat :=
  if y = 0 then fMinss e f y x else fMinss e f x y

/-- Semantics of `emit_f32_max` / `emit_f64_max` (x86_64.hpp lines
1160-1187 and 1301-1328): if the raw bits of `y` are exactly +0 it
computes `maxss(x, y)`, otherwise `maxss(y, x)`. -/
def fmax_jit (e f x y : Nat) : Nat :=
  if y = 0 then fMaxss e f x y else fMaxss e f y x

/-- f32.min lowering on bit patterns. -/
def f32_min (x y : Nat) : Nat := fmin_jit 8 23 x y

/-- f32.max lowering on bit patterns. -/
def f32_max (x y : Nat) : Nat := fmax_jit 8 23 x y

/-- f64.min lowering on bit patterns. -/
def f64_min (x y : Nat) : Nat := fmin_jit 11 52 x y

/-- f64.max lowering on bit patterns. -/
def f64_max (x y : Nat) : Nat := fmax_jit 11 52 x y

/-- The bit pattern of -0.0f. -/
def f32_negZero : Nat := 2 ^ 31

/-- The bit pattern of -0.0 (double). -/
def f64_negZero : Nat := 2 ^ 63

/-! ## Executor: status mapping, host-call shim, validation, caching,
options -/

/-- The evmc status codes `athena_execute` produces (athena.cpp). -/
inductive AthenaStatus where
  | success
  | revert
  | failure
  | argumentOutOfRange
  | outOfGas
  | contractValidationFailure
  | invalidMemoryAccess
  | staticModeViolation
  | internalError
  deriving DecidableEq, Repr

/-- The typed exception kinds of exceptions.h that can cross the engine
boundary, plus the two generic catch-all cases of `athena_execute`. -/
inductive AthenaExceptionKind where
  | endExecution
  | vmTrap
  | argumentOutOfRange
  | outOfGas
  | contractValidationFailure
  | invalidMemoryAccess
  | staticModeViolation
  | internalError
  | stdException
  | unknownThrow
  deriving DecidableEq, Repr

/-- The catch chain of `athena_execute` (athena.cpp lines 374-408), in
source order: each exception kind is mapped to the evmc status written
into the returned result. -/
def athena_execute_catch : AthenaExceptionKind → AthenaStatus
  | .endExecution => .internalError
  | .vmTrap => .failure
  | .argumentOutOfRange => .argumentOutOfRange
  | .outOfGas => .outOfGas
  | .contractValidationFailure => .contractValidationFailure
  | .invalidMemoryAccess => .invalidMemoryAccess
  | .staticModeViolation => .staticModeViolation
  | .internalError => .internalError
  | .stdException => .internalError
  | .unknownThrow => .internalError

/-- What a host callback invocation does: return a value or raise a typed
native exception. -/
inductive HostCallOutcome (α : Type) where
  | ok (v : α)
  | raised (e : AthenaExceptionKind)

/-- How control comes back out of a JITted frame after a host call: a
normal return value, or a typed trap signal delivered after the JIT frames
have been exited. There is deliberately no constructor for a native
exception unwinding through a JIT frame. -/
inductive JitTransfer (α : Type) where
  | normalReturn (v : α)
  | trapSignal (e : AthenaExceptionKind)

/-- Modelled from the spec: `vm::longjmp_on_exception` (eos-vm
signals.hpp, not under `src/`) runs the wrapped callback and converts any
native exception it raises into a non-local jump that exits the JIT frames
and surfaces the typed error kind; spec sections 4.4 and 7. -/
def longjmp_on_exception {α : Type} (act : HostCallOutcome α) : JitTransfer α :=
  match act with
  | .ok v => .normalReturn v
  | .raised e => .trapSignal e

/-- x86_64.hpp `machine_code_writer::call_host_function` (lines
2015-2024): the C-ABI shim every JIT-to-host transition goes through; it
wraps the host callback in `longjmp_on_exception` because throwing through
a JIT frame is unsafe. -/
def call_host_function {α : Type} (cb : HostCallOutcome α) : JitTransfer α :=
  longjmp_on_exception cb

/-- wabt `ExternalKind` of an export. -/
inductive ExternalKind where
  | func
  | table
  | memory
  | global
  deriving DecidableEq, Repr

/-- The loaded-module facts `WabtEngine::execute` checks before running
anything (wabt.cpp lines 760-775): the environment's memory count, the
export list, and the start-function index (`none` models
`kInvalidIndex`). -/
structure WabtModuleInst where
  memoryCount : Nat
  exports : List (String × ExternalKind)
  start_func_index : Option Nat

/-- wabt `Module::GetExport`: first export with the given name. -/
def GetExport (m : WabtModuleInst) (name : String) : Option ExternalKind :=
  (m.exports.find? fun p => p.1 = name).map (·.2)

/-- The `ensureCondition` sequence of `WabtEngine::execute` (wabt.cpp lines
760-775), run after the module loaded and before `executor.Initialize` /
`RunExport`: exactly one memory, a `"memory"` export, no start function,
and an exported `"main"` that is a function; each failure throws
`ContractValidationFailure`. -/
def wabt_execute_checks (m : WabtModuleInst) : Except AthenaExceptionKind Unit :=
  if m.memoryCount ≠ 1 then .error .contractValidationFailure
  else if (GetExport m "memory").isNone then .error .contractValidationFailure
  else if m.start_func_index ≠ none then .error .contractValidationFailure
  else
    match GetExport m "main" with
    | none => .error .contractValidationFailure
    | some k =>
      if k ≠ .func then .error .contractValidationFailure else .ok ()

/-- End-to-end view of an invocation: the checks run first; a thrown
exception is caught by `athena_execute` and mapped to a status with no
contract code run (the Boolean records whether `RunExport` was reached);
otherwise the contract runs and produces `runOutcome`. -/
def wabt_engine_execute (m : WabtModuleInst) (runOutcome : AthenaStatus) :
    AthenaStatus × Bool :=
  match wabt_execute_checks m with
  | .error e => (athena_execute_catch e, false)
  | .ok _ => (runOutcome, true)

/-- The mutable state `WabtEngine::execute` threads between invocations
(wabt.cpp lines 85-92 and 731-757): `codeCache` maps a destination address
to the id of a cached `envCache_t`, whose `env_` field owns the wabt
`interp::Environment` and hence the linear memory and globals. Fresh ids
are drawn from the two counters. -/
structure WabtWorld where
  codeCache : List (Nat × Nat)
  nextEnvId : Nat
  nextResultId : Nat

/-- What one invocation observed: which environment (linear memory +
globals) it ran in, whether that environment was created by this
invocation, and the id of its `ExecutionResult`. -/
structure InvocationState where
  envId : Nat
  envIsFresh : Bool
  resultId : Nat
  deriving DecidableEq, Repr

/-- The caching logic of `WabtEngine::execute` (wabt.cpp lines 731-757): a
local `ExecutionResult result` is always freshly constructed; the
`envCache_t` is looked up in `codeCache` by `msg.destination` and reused
on a hit (only its `eei_` pointer is re-aimed), while on a miss a fresh
environment is created and inserted into the cache. -/
def WabtEngine_execute_cache (w : WabtWorld) (dest : Nat) :
    WabtWorld × InvocationState :=
  match w.codeCache.lookup dest with
  | some envId =>
    ({ w with nextResultId := w.nextResultId + 1 },
     { envId := envId, envIsFresh := false, resultId := w.nextResultId })
  | none =>
    ({ codeCache := (dest, w.nextEnvId) :: w.codeCache,
       nextEnvId := w.nextEnvId + 1,
       nextResultId := w.nextResultId + 1 },
     { envId := w.nextEnvId, envIsFresh := true, resultId := w.nextResultId })

/-- evmc set-option result codes. -/
inductive EvmcSetOptionResult where
  | success
  | invalidName
  | invalidValue
  deriving DecidableEq, Repr

/-- The `"metering"` branch of `athena_set_option` (athena.cpp lines
474-480): value `"true"` sets the flag; any value other than `"true"` or
`"false"` is INVALID_VALUE; both `"true"` and `"false"` report SUCCESS,
and only `"true"` mutates the flag. Returns the result code and the new
flag value. -/
def athena_set_option_metering (metering : Bool) (value : String) :
    EvmcSetOptionResult × Bool :=
  if value = "true" then (.success, true)
  else if value ≠ "false" then (.invalidValue, metering)
  else (.success, metering)

/-! ## Theorems -/

/-- C10: `set_option("metering", "false")` returns success but leaves the
metering flag unchanged; only `"true"` mutates the flag, so metering stays
enabled once enabled; any other value returns invalid-value and leaves the
flag alone. -/
theorem c10_set_option_metering (m : Bool) (v : String) :
    athena_set_option_metering m "false" = (.success, m)
    ∧ athena_set_option_metering true "false" = (.success, true)
    ∧ athena_set_option_metering m "true" = (.success, true)
    ∧ (v ≠ "true" → v ≠ "false" →
        athena_set_option_metering m v = (.invalidValue, m)) := by
  refine ⟨rfl, rfl, rfl, fun h1 h2 => ?_⟩
  simp [athena_set_option_metering, h1, h2]

/-- Witness for C10 at the concrete value `"off"`. -/
theorem c10_set_option_metering_witness :
    athena_set_option_metering true "off" = (.invalidValue, true) :=
  (c10_set_option_metering true "off").2.2.2 (by decide) (by decide)

/-- C9: a module without an exported `main`, and likewise a module that
declares a start function, makes `WabtEngine::execute` return
contract-validation-failure without running any contract code. -/
theorem c9_main_start_validation (m : WabtModuleInst) (r : AthenaStatus) :
    (GetExport m "main" = none →
      wabt_engine_execute m r = (.contractValidationFailure, false))
    ∧ (m.start_func_index ≠ none →
      wabt_engine_execute m r = (.contractValidationFailure, false)) := by
  constructor
  · intro h
    unfold wabt_engine_execute wabt_execute_checks
    rw [h]
    split_ifs <;> rfl
  · intro h
    unfold wabt_engine_execute wabt_execute_checks
    split_ifs <;> rfl

/-- Witness for C9: a concrete module with no exports and a start
function. -/
theorem c9_main_start_validation_witness :
    wabt_engine_execute ⟨1, [("memory", .memory)], some 0⟩ .success
      = (.contractValidationFailure, false) :=
  (c9_main_start_validation ⟨1, [("memory", .memory)], some 0⟩ .success).2
    (by decide)

/-- C3 counterexample: starting from an empty cache, a second invocation
with the same destination address reuses the environment object (which
owns the linear memory and globals) created by the first invocation, so
the linear memory is not fresh per invocation. -/
theorem c3_env_reuse_counterexample :
    (WabtEngine_execute_cache
        (WabtEngine_execute_cache ⟨[], 0, 0⟩ 7).1 7).2.envIsFresh = false
    ∧ (WabtEngine_execute_cache
        (WabtEngine_execute_cache ⟨[], 0, 0⟩ 7).1 7).2.envId
      = (WabtEngine_execute_cache ⟨[], 0, 0⟩ 7).2.envId := by
  constructor <;> rfl

/-- C3 amended: every invocation creates a fresh `ExecutionResult`, but
the environment holding linear memory and globals is cached per
destination address: it is fresh exactly when the address misses the
cache, and a hit reuses the cached environment of an earlier
invocation. -/
theorem c3_per_invocation_state (w : WabtWorld) (d e : Nat) :
    (WabtEngine_execute_cache w d).2.resultId = w.nextResultId
    ∧ (WabtEngine_execute_cache w d).1.nextResultId = w.nextResultId + 1
    ∧ ((WabtEngine_execute_cache w d).2.envIsFresh = true ↔
        w.codeCache.lookup d = none)
    ∧ (w.codeCache.lookup d = some e →
        (WabtEngine_execute_cache w d).2.envId = e) := by
  unfold WabtEngine_execute_cache
  cases h : w.codeCache.lookup d <;> simp [h]

/-- Witness for C3's amended theorem on a concrete cached world. -/
theorem c3_per_invocation_state_witness :
    List.lookup 5 [((5 : Nat), (9 : Nat))] = some 9
    ∧ (WabtEngine_execute_cache ⟨[(5, 9)], 1, 0⟩ 5).2.envId = 9 :=
  ⟨by decide, (c3_per_invocation_state ⟨[(5, 9)], 1, 0⟩ 5 9).2.2.2 (by decide)⟩

/-- C8: every JIT-to-host transition goes through `call_host_function`,
which converts a raised native exception into a typed trap signal (never
an unwind through a JIT frame) and returns values unchanged; and
`athena_execute` maps every captured kind to the claimed status. -/
theorem c8_host_exception_mapping {α : Type} (cb : HostCallOutcome α) :
    (∀ e, cb = .raised e → call_host_function cb = .trapSignal e)
    ∧ (∀ v, cb = .ok v → call_host_function cb = .normalReturn v)
    ∧ athena_execute_catch .vmTrap = .failure
    ∧ athena_execute_catch .outOfGas = .outOfGas
    ∧ athena_execute_catch .argumentOutOfRange = .argumentOutOfRange
    ∧ athena_execute_catch .invalidMemoryAccess = .invalidMemoryAccess
    ∧ athena_execute_catch .staticModeViolation = .staticModeViolation
    ∧ athena_execute_catch .contractValidationFailure
        = .contractValidationFailure
    ∧ athena_execute_catch .internalError = .internalError := by
  refine ⟨?_, ?_, rfl, rfl, rfl, rfl, rfl, rfl, rfl⟩
  · rintro e rfl; rfl
  · rintro v rfl; rfl

/-- Witness for C8 on a concrete raised exception. -/
theorem c8_host_exception_mapping_witness :
    call_host_function (HostCallOutcome.raised (α := Nat) .outOfGas)
      = .trapSignal .outOfGas :=
  (c8_host_exception_mapping (HostCallOutcome.raised (α := Nat) .outOfGas)).1
    .outOfGas rfl

/-- C4 counterexample: the 16-byte stack alignment instruction
(`andq $-16, %rsp`) appears nowhere in the code emitted for memory.size or
memory.grow, although it does appear in the host-call thunk, so the
claimed alignment step is absent from these two lowerings. -/
theorem c4_no_alignment_counterexample :
    hasRun alignRspSeq emit_current_memory = false
    ∧ hasRun alignRspSeq emit_grow_memory = false
    ∧ hasRun alignRspSeq (emit_host_call 0) = true := by
  decide

/-- C4 amended: memory.size saves %rdi (arg0, host state) and %rsi (arg1,
memory base), calls the C-ABI shim through an absolute pointer, restores
the two registers in reverse order and pushes the result; memory.grow
additionally pops its page-count argument into the shim's argument
register first; neither emitter aligns the native stack to 16 bytes. -/
theorem c4_memory_upcall_shape :
    emit_current_memory
      = [.byte 0x57, .byte 0x56]
        ++ [.byte 0x48, .byte 0xb8, .ptr64 .currentMemory,
            .byte 0xff, .byte 0xd0]
        ++ [.byte 0x5e, .byte 0x5f, .byte 0x50]
    ∧ emit_grow_memory
      = [.byte 0x58]
        ++ [.byte 0x57, .byte 0x56]
        ++ [.byte 0x48, .byte 0x89, .byte 0xc6]
        ++ [.byte 0x48, .byte 0xb8, .ptr64 .growMemory,
            .byte 0xff, .byte 0xd0]
        ++ [.byte 0x5e, .byte 0x5f, .byte 0x50]
    ∧ hasRun alignRspSeq emit_current_memory = false
    ∧ hasRun alignRspSeq emit_grow_memory = false := by
  refine ⟨rfl, rfl, ?_, ?_⟩ <;> decide

/-- C2: every emitted call (direct and indirect) is bracketed by the
depth-counter decrement-and-branch-on-zero and the matching increment; the
increment undoes the decrement; and with the counter initialized to the
budget `B`, the counter after `k` nested calls is `B - k`, so the number
of JITted frames (the entry frame plus the nested calls) never exceeds
`B`, and the call that would create frame `B + 1` branches to the
stack-overflow trampoline. -/
theorem c2_call_depth_bracket (ft : FuncType) (fn ti tsz B : Nat) :
    (∃ mid, emit_call ft fn
        = emit_check_call_depth ++ mid ++ emit_check_call_depth_end)
    ∧ (∃ mid, emit_call_indirect tsz ft ti
        = emit_check_call_depth ++ mid ++ emit_check_call_depth_end)
    ∧ (∀ c, c < 2 ^ 32 → ∀ c', check_call_depth_step c = some c' →
        check_call_depth_end_step c' = c)
    ∧ (0 < B → B < 2 ^ 32 →
        (∀ k, k < B → callDepthAfter B k = some (B - k))
        ∧ callDepthAfter B B = none) := by
  refine ⟨?_, ?_, ?_, ?_⟩
  · exact ⟨[.byte 0xe8, .disp32 (.funcT fn)]
        ++ emit_multipop ft.param_count
        ++ (if ft.return_count ≠ 0 then [.byte 0x50] else []),
      by simp [emit_call, List.append_assoc]⟩
  · exact ⟨[.byte 0x58,
        .byte 0x48, .byte 0x3d, .imm32 tsz,
        .byte 0x0f, .byte 0x83, .disp32 .callIndirectErrH,
        .byte 0x48, .byte 0x8d, .byte 0x15, .disp32 .jmpTableT,
        .byte 0x6b, .byte 0xc0, .byte 17,
        .byte 0x48, .byte 0x01, .byte 0xd0,
        .byte 0xba, .imm32 ti,
        .byte 0xff, .byte 0xd0]
        ++ emit_multipop ft.param_count
        ++ (if ft.return_count ≠ 0 then [.byte 0x50] else []),
      by simp [emit_call_indirect, List.append_assoc]⟩
  · intro c hc c' h
    simp only [check_call_depth_step] at h
    split at h
    · exact Option.noConfusion h
    · rename_i hne
      have h' := Option.some.inj h
      subst h'
      simp only [check_call_depth_end_step]
      omega
  · intro hB hB32
    have main : ∀ k, k < B → callDepthAfter B k = some (B - k) := by
      intro k
      induction k with
      | zero => intro _; simp [callDepthAfter]
      | succ k ih =>
        intro hk
        rw [callDepthAfter, ih (by omega), Option.some_bind]
        unfold check_call_depth_step
        have h1 : (B - k + (2 ^ 32 - 1)) % 2 ^ 32 = B - (k + 1) := by omega
        rw [h1]
        rw [if_neg (show ¬ B - (k + 1) = 0 by omega)]
    refine ⟨main, ?_⟩
    have key : callDepthAfter B (B - 1 + 1) = none := by
      rw [callDepthAfter, main (B - 1) (by omega), Option.some_bind]
      have h1 : B - (B - 1) = 1 := by omega
      rw [h1]
      unfold check_call_depth_step
      rw [if_pos (show (1 + (2 ^ 32 - 1)) % 2 ^ 32 = 0 by norm_num)]
    have hB1 : B - 1 + 1 = B := by omega
    rw [hB1] at key
    exact key

/-- Witness for C2 at budget 2: two frames are reachable, the second
nested call traps. -/
theorem c2_call_depth_bracket_witness :
    callDepthAfter 2 1 = some 1 ∧ callDepthAfter 2 2 = none :=
  ⟨((c2_call_depth_bracket ⟨0, 0⟩ 0 0 0 2).2.2.2 (by norm_num)
      (by norm_num)).1 1 (by norm_num),
   ((c2_call_depth_bracket ⟨0, 0⟩ 0 0 0 2).2.2.2 (by norm_num)
      (by norm_num)).2⟩

/-- C1: the emitted call_indirect dispatch transfers control to the
table's target function iff the popped index is within the table and the
target's canonical type token equals the caller's token; an out-of-range
index branches to the call-indirect-error trampoline, and an in-range
index whose target token differs branches to the type-error trampoline. -/
theorem c1_call_indirect_dispatch (m : TableModule) (t i : Nat) :
    (m.table.length ≤ i → call_indirect_sem m t i = .trapOutOfRange)
    ∧ (∀ h : i < m.table.length,
        (m.fast_functions[m.table[i]]? = some t →
          call_indirect_sem m t i = .callFn (m.table[i]))
        ∧ (∀ tok, m.fast_functions[m.table[i]]? = some tok → tok ≠ t →
          call_indirect_sem m t i = .trapTypeMismatch))
    ∧ ((∃ fn, call_indirect_sem m t i = .callFn fn)
        ↔ ∃ h : i < m.table.length, m.fast_functions[m.table[i]]? = some t) := by
  refine ⟨?_, ?_, ?_⟩
  · intro h
    simp [call_indirect_sem, Nat.not_lt.mpr h]
  · intro h
    constructor
    · intro hsome
      obtain ⟨hlt, heq⟩ := List.getElem?_eq_some_iff.mp hsome
      simp [call_indirect_sem, h, jumpTableEntry, hlt, heq]
    · intro tok hsome hne
      obtain ⟨hlt, heq⟩ := List.getElem?_eq_some_iff.mp hsome
      simp only [call_indirect_sem, jumpTableEntry, dif_pos h, dif_pos hlt]
      rw [heq, if_neg hne]
  · constructor
    · rintro ⟨fn, hfn⟩
      simp only [call_indirect_sem] at hfn
      split at hfn
      · rename_i h
        refine ⟨h, ?_⟩
        simp only [jumpTableEntry] at hfn
        split at hfn
        · rename_i hlt
          split at hfn
          · rename_i heq
            cases hfn
            exact List.getElem?_eq_some_iff.mpr ⟨hlt, heq⟩
          · cases hfn
        · cases hfn
      · cases hfn
    · rintro ⟨h, hsome⟩
      obtain ⟨hlt, heq⟩ := List.getElem?_eq_some_iff.mp hsome
      exact ⟨m.table[i], by simp [call_indirect_sem, h, jumpTableEntry, hlt, heq]⟩

/-- The truncated quotient's absolute value is the quotient of the
absolute values. -/
theorem trquot_natAbs (a b : Int) : (trquot a b).natAbs = a.natAbs / b.natAbs := by
  unfold trquot
  rcases eq_or_ne a 0 with rfl | ha
  · simp
  · rcases eq_or_ne b 0 with rfl | hb
    · simp
    · rw [Int.natAbs_mul, Int.natAbs_mul, Int.natAbs_sign_of_nonzero ha,
        Int.natAbs_sign_of_nonzero hb]
      simp only [one_mul, Int.natAbs_ofNat]

/-- Truncated division by one is the identity. -/
theorem trquot_one (a : Int) : trquot a 1 = a := by
  unfold trquot
  simp [Int.sign_mul_abs]

/-- Truncated remainder by minus one is zero; this is why the emitted
short-circuit for divisor -1 (which zeroes %rdx) agrees with Wasm. -/
theorem trem_neg_one (a : Int) : trem a (-1) = 0 := by
  unfold trem trquot
  have h1 : ((-1 : Int)).sign = -1 := rfl
  have h2 : ((-1 : Int)).natAbs = 1 := rfl
  rw [h1, h2, Nat.div_one]
  have h3 : a.sign * (a.natAbs : Int) = a := Int.sign_mul_natAbs a
  linear_combination (-1 : Int) * h3

/-- `toSigned` lands in the signed range. -/
theorem toSigned_bounds (N b : Nat) (hb : b < 2 * N) :
    -(N : Int) ≤ toSigned N b ∧ toSigned N b < N := by
  unfold toSigned
  split <;> constructor <;> omega

/-- For an in-range dividend and a divisor that is neither 0 nor -1, the
truncated quotient fits back in the signed register width, so the `idiv`
emitted by the remainder lowerings cannot fault once -1 is
short-circuited. -/
theorem trquot_bound (N : Nat) (sa c : Int) (hN : 0 < N)
    (hlo : -(N : Int) ≤ sa) (hhi : sa < N) (hc0 : c ≠ 0) (hcm1 : c ≠ -1) :
    -(N : Int) ≤ trquot sa c ∧ trquot sa c < N := by
  have habs : (trquot sa c).natAbs = sa.natAbs / c.natAbs := trquot_natAbs sa c
  have h1 : sa.natAbs ≤ N := by omega
  have h2 : sa.natAbs / c.natAbs ≤ sa.natAbs := Nat.div_le_self _ _
  refine ⟨by omega, ?_⟩
  by_contra hq
  push_neg at hq
  have hca : c.natAbs = 1 := by
    by_contra hca
    have h2' : 2 ≤ c.natAbs := by omega
    have h3 : sa.natAbs / c.natAbs ≤ sa.natAbs / 2 :=
      Nat.div_le_div_left h2' (by omega)
    omega
  have hc1 : c = 1 := by omega
  subst hc1
  rw [trquot_one] at hq
  omega

/-- For a nonzero divisor that is not -1, the emitted `idiv` completes and
produces the truncated quotient and remainder. -/
theorem idivT_eq (N : Nat) (sa sc : Int) (hN : 0 < N)
    (hlo : -(N : Int) ≤ sa) (hhi : sa < N) (hc0 : sc ≠ 0) (hcm1 : sc ≠ -1) :
    idivT N sa sc = some (trquot sa sc, trem sa sc) := by
  obtain ⟨hb1, hb2⟩ := trquot_bound N sa sc hN hlo hhi hc0 hcm1
  unfold idivT
  rw [if_neg hc0, if_neg (not_or.mpr ⟨not_lt.mpr hb1, not_le.mpr hb2⟩)]

/-- The remainder lowering computes the truncated remainder of the two
signed operands whenever the divisor is nonzero, and the short-circuit
flag is set exactly for divisor -1. -/
theorem rem_s_jit_spec (N a c : Nat) (hN : 0 < N) (ha : a < 2 * N)
    (_hc : c < 2 * N) (hc0 : toSigned N c ≠ 0) :
    ∃ flag,
      rem_s_jit N a c
        = some (toBits N (trem (toSigned N a) (toSigned N c)), flag)
      ∧ (flag = true ↔ toSigned N c = -1) := by
  obtain ⟨halo, hahi⟩ := toSigned_bounds N a ha
  by_cases hm1 : toSigned N c = -1
  · refine ⟨true, ?_, by simp [hm1]⟩
    unfold rem_s_jit
    rw [if_pos hm1, hm1, trem_neg_one]
    rfl
  · refine ⟨false, ?_, by simp [hm1]⟩
    unfold rem_s_jit
    rw [if_neg hm1, idivT_eq N _ _ hN halo hahi hc0 hm1]

/-- C6: i32.rem_s and i64.rem_s compute the truncated signed remainder of
the popped operands, short-circuit every divisor equal to -1 to the result
0 (in particular INT_MIN % -1, which would overflow the native divide,
yields 0), and the signed-division lowerings sign-extend the dividend
(`cdq`/`cqo`) immediately before the native `idiv`. -/
theorem c6_rem_s_div_s (a c : Nat) :
    (a < 2 ^ 32 → c < 2 ^ 32 → toSigned (2 ^ 31) c ≠ 0 →
      ∃ flag,
        i32_rem_s_sem a c
          = some (toBits (2 ^ 31)
                    (trem (toSigned (2 ^ 31) a) (toSigned (2 ^ 31) c)), flag)
        ∧ (flag = true ↔ toSigned (2 ^ 31) c = -1))
    ∧ (a < 2 ^ 64 → c < 2 ^ 64 → toSigned (2 ^ 63) c ≠ 0 →
      ∃ flag,
        i64_rem_s_sem a c
          = some (toBits (2 ^ 63)
                    (trem (toSigned (2 ^ 63) a) (toSigned (2 ^ 63) c)), flag)
        ∧ (flag = true ↔ toSigned (2 ^ 63) c = -1))
    ∧ i32_rem_s_sem (2 ^ 31) (2 ^ 32 - 1) = some (0, true)
    ∧ i64_rem_s_sem (2 ^ 63) (2 ^ 64 - 1) = some (0, true)
    ∧ emit_i32_div_s
        = emit_i32_binop
            ([.byte 0x99] ++ [.byte 0xf7, .byte 0xf9] ++ [.byte 0x50])
    ∧ emit_i64_div_s
        = emit_i64_binop
            ([.byte 0x48, .byte 0x99]
              ++ [.byte 0x48, .byte 0xf7, .byte 0xf9] ++ [.byte 0x50]) := by
  refine ⟨?_, ?_, ?_, ?_, rfl, rfl⟩
  · intro ha hc hc0
    exact rem_s_jit_spec (2 ^ 31) a c (by norm_num) (by omega) (by omega) hc0
  · intro ha hc hc0
    exact rem_s_jit_spec (2 ^ 63) a c (by norm_num) (by omega) (by omega) hc0
  · decide
  · decide

/-- Witness for C6 at dividend 7 and divisor -2 (bit pattern 2^32 - 2). -/
theorem c6_rem_s_div_s_witness :
    ∃ flag,
      i32_rem_s_sem 7 (2 ^ 32 - 2)
        = some (toBits (2 ^ 31)
                  (trem (toSigned (2 ^ 31) 7) (toSigned (2 ^ 31) (2 ^ 32 - 2))),
                flag)
      ∧ (flag = true ↔ toSigned (2 ^ 31) (2 ^ 32 - 2) = -1) :=
  (c6_rem_s_div_s 7 (2 ^ 32 - 2)).1 (by norm_num) (by norm_num) (by decide)

/-- One unfolding step of the binary-search walk: a range wider than one
compares against the midpoint; a narrower range is a leaf.  (`d` is fuel
bounding the range width, for the induction.) -/
theorem brTableDescend_spec (d : Nat) : ∀ lo hi v, hi - lo ≤ d → lo < hi →
    brTableDescend lo hi v = min (max v lo) (hi - 1) := by
  induction d with
  | zero => intro lo hi v h1 h2; omega
  | succ d ih =>
    intro lo hi v h1 h2
    rw [brTableDescend]
    split
    · rename_i hgt
      split
      · rename_i hge
        rw [ih (lo + (hi - lo) / 2) hi v (by omega) (by omega)]
        omega
      · rename_i hlt
        rw [ih lo (lo + (hi - lo) / 2) v (by omega) (by omega)]
        omega
    · rename_i hle
      omega

/-- The stack walk emits the cases of a range in ascending order, one leaf
per case, recursing through splits exactly as `emit_case` does. -/
theorem emitCases_cons (d : Nat) : ∀ lo hi rest, hi - lo ≤ d → lo < hi →
    emitCases ((lo, hi) :: rest)
      = List.range' lo (hi - lo) ++ emitCases rest := by
  induction d with
  | zero => intro lo hi rest h1 h2; omega
  | succ d ih =>
    intro lo hi rest h1 h2
    rw [emitCases]
    split
    · rename_i hgt
      rw [ih lo (lo + (hi - lo) / 2) ((lo + (hi - lo) / 2, hi) :: rest)
          (by omega) (by omega)]
      rw [ih (lo + (hi - lo) / 2) hi rest (by omega) (by omega)]
      rw [← List.append_assoc]
      congr 1
      have hm : lo + (hi - lo) / 2 - lo = (hi - lo) / 2 := by omega
      rw [hm, List.range'_append_1]
      congr 1
      omega
    · rename_i hle
      have h3 : hi - lo = 1 := by omega
      rw [h3]
      simp [List.range']

/-- The all-zero bit pattern (+0.0) is not a NaN in any format. -/
theorem fIsNaN_zero (e f : Nat) : fIsNaN e f 0 = false := by
  unfold fIsNaN fFrac
  simp

/-- The native `minss`/`minsd` result is NaN exactly when the source (the
second) operand is NaN: a NaN in either operand forwards the source, and
otherwise the result is one of two non-NaN operands. -/
theorem fMinss_isNaN (e f a b : Nat) :
    fIsNaN e f (fMinss e f a b) = fIsNaN e f b := by
  unfold fMinss
  cases hb : fIsNaN e f b
  · cases ha : fIsNaN e f a
    · rw [if_neg (by simp [ha, hb])]
      split
      · exact ha
      · exact hb
    · rw [if_pos (by simp [ha])]
      exact hb
  · rw [if_pos (by simp [hb])]
    exact hb

/-- Same for `maxss`/`maxsd`. -/
theorem fMaxss_isNaN (e f a b : Nat) :
    fIsNaN e f (fMaxss e f a b) = fIsNaN e f b := by
  unfold fMaxss
  cases hb : fIsNaN e f b
  · cases ha : fIsNaN e f a
    · rw [if_neg (by simp [ha, hb])]
      split
      · exact ha
      · exact hb
    · rw [if_pos (by simp [ha])]
      exact hb
  · rw [if_pos (by simp [hb])]
    exact hb

/-- When the result of the emitted float-min is NaN: exactly when the top
operand is NaN, or the deeper operand is NaN while the top operand is
bitwise +0 (the case the zero-check reroutes). -/
theorem fmin_jit_isNaN (e f x y : Nat) :
    fIsNaN e f (fmin_jit e f x y)
      = (fIsNaN e f y || (fIsNaN e f x && decide (y = 0))) := by
  unfold fmin_jit
  by_cases hy : y = 0
  · rw [if_pos hy, fMinss_isNaN, hy, fIsNaN_zero]
    simp
  · rw [if_neg hy, fMinss_isNaN]
    simp [hy]

/-- When the result of the emitted float-max is NaN: exactly when the
deeper operand is NaN and the top operand is not bitwise +0. -/
theorem fmax_jit_isNaN (e f x y : Nat) :
    fIsNaN e f (fmax_jit e f x y)
      = (fIsNaN e f x && !decide (y = 0)) := by
  unfold fmax_jit
  by_cases hy : y = 0
  · rw [if_pos hy, fMaxss_isNaN, hy, fIsNaN_zero]
    simp
  · rw [if_neg hy, fMaxss_isNaN]
    simp [hy]

/-- C5 counterexample: f32.min with a NaN first operand and 1.0f as second
operand returns 1.0f, which is not a NaN, so the claim that every
NaN-containing operand pair yields NaN fails on the emitted lowering. -/
theorem c5_nan_counterexample :
    fIsNaN 8 23 0x7fc00000 = true
    ∧ f32_min 0x7fc00000 0x3f800000 = 0x3f800000
    ∧ fIsNaN 8 23 0x3f800000 = false := by
  refine ⟨by decide, by decide, by decide⟩

/-- C5 amended: the lowerings handle -0 versus +0 by the explicit bit
check of the top operand, so min over signed zeros yields -0 and max
yields +0 in both operand orders and both widths; NaN propagation is only
partial: the result is NaN exactly when the native min/max forwards a NaN
(for min: the top operand is NaN, or the deeper operand is NaN while the
top is bitwise +0; for max: the deeper operand is NaN while the top is
not bitwise +0). -/
theorem c5_minmax_zero_nan :
    f32_min f32_negZero 0 = f32_negZero
    ∧ f32_min 0 f32_negZero = f32_negZero
    ∧ f32_max f32_negZero 0 = 0
    ∧ f32_max 0 f32_negZero = 0
    ∧ f64_min f64_negZero 0 = f64_negZero
    ∧ f64_min 0 f64_negZero = f64_negZero
    ∧ f64_max f64_negZero 0 = 0
    ∧ f64_max 0 f64_negZero = 0
    ∧ (∀ x y, fIsNaN 8 23 (f32_min x y)
        = (fIsNaN 8 23 y || (fIsNaN 8 23 x && decide (y = 0))))
    ∧ (∀ x y, fIsNaN 8 23 (f32_max x y)
        = (fIsNaN 8 23 x && !decide (y = 0)))
    ∧ (∀ x y, fIsNaN 11 52 (f64_min x y)
        = (fIsNaN 11 52 y || (fIsNaN 11 52 x && decide (y = 0))))
    ∧ (∀ x y, fIsNaN 11 52 (f64_max x y)
        = (fIsNaN 11 52 x && !decide (y = 0))) := by
  refine ⟨by decide, by decide, by decide, by decide, by decide, by decide,
    by decide, by decide, ?_, ?_, ?_, ?_⟩
  · exact fun x y => fmin_jit_isNaN 8 23 x y
  · exact fun x y => fmax_jit_isNaN 8 23 x y
  · exact fun x y => fmin_jit_isNaN 11 52 x y
  · exact fun x y => fmax_jit_isNaN 11 52 x y

/-- C7: br_table is lowered to a balanced binary search (each step splits
the range at its midpoint) with the default folded in by starting from the
widened range [0, table_size + 1): the emitted leaves are the cases
0..table_size in order (leaf table_size being the default), and the search
routes a popped index v to leaf v when v < table_size and to the default
leaf otherwise. -/
theorem c7_br_table_binary_search (n v : Nat) :
    emitCases (emit_br_table_stack n) = List.range (n + 1)
    ∧ brTableDescend 0 (n + 1) v = min v n := by
  constructor
  · rw [emit_br_table_stack,
      emitCases_cons (n + 1) 0 (n + 1) [] (by omega) (by omega)]
    rw [emitCases]
    simp [List.range_eq_range']
  · rw [brTableDescend_spec (n + 1) 0 (n + 1) v (by omega) (by omega)]
    omega

/-- Witness for C1 on a one-entry table whose function has token 5: token
5 calls function 0, token 6 hits the type-error trampoline, index 1 hits
the call-indirect-error trampoline. -/
theorem c1_call_indirect_dispatch_witness :
    call_indirect_sem ⟨[0], [5], []⟩ 5 0 = .callFn 0
    ∧ call_indirect_sem ⟨[0], [5], []⟩ 6 0 = .trapTypeMismatch
    ∧ call_indirect_sem ⟨[0], [5], []⟩ 5 1 = .trapOutOfRange :=
  ⟨((c1_call_indirect_dispatch ⟨[0], [5], []⟩ 5 0).2.1 (by decide)).1 (by decide),
   ((c1_call_indirect_dispatch ⟨[0], [5], []⟩ 6 0).2.1 (by decide)).2 5
     (by decide) (by decide),
   (c1_call_indirect_dispatch ⟨[0], [5], []⟩ 5 1).1 (by decide)⟩

end Athena
